import Mathlib

/-!
Verification of the pbp-reminder repository's core logic.

This file gives a shallow embedding of the two scripts that carry the
state-reconciliation logic of the repository:

* `scripts/checker.py` — the hourly inactivity checker (`process_updates`,
  `check_and_alert`); embedded in namespace `Checker`.
* `scripts/import_history.py` — the deduplicating historical importer
  (`extract_text`, `detect_media`, `format_entry`, `import_messages`);
  embedded in namespace `Importer`.

Modelling conventions:

* Python dictionaries keyed by strings/ints become association lists with
  the insert-or-replace operation `insertA` and the lookup `lookupA`.
* Timestamps (ISO strings parsed with `fromisoformat`, and values of
  `datetime.now`) become integers counting seconds; `elapsed.total_seconds()
  / 3600 < alert_hours` is translated to the equivalent integer comparison
  `elapsed_seconds < alert_hours * 3600`.
* The side effect of calling the Telegram `sendMessage` endpoint is made
  explicit: `check_and_alert` takes the transport as a boolean oracle
  (success/failure of each send) and additionally returns the list of sends
  it attempted, each tagged with the topic pair being processed and the
  oracle's verdict — pure instrumentation of the loop body.
* The importer's filesystem (per-campaign `.imported_ids` tracker plus the
  month-named transcript files) becomes an association list from directory
  name to a `CampaignFS` record; message-id sets are modelled as lists used
  only through membership.
-/

set_option maxRecDepth 4000

section AssocHelpers

variable {κ : Type} {α : Type} [DecidableEq κ]

/-- Lookup in an association list (Python `d.get(k)` / `d[k]`). -/
def lookupA : List (κ × α) → κ → Option α
  | [], _ => none
  | (k', v) :: rest, k => if k' = k then some v else lookupA rest k

/-- Insert-or-replace in an association list (Python `d[k] = v`). -/
def insertA : List (κ × α) → κ → α → List (κ × α)
  | [], k, v => [(k, v)]
  | (k', v') :: rest, k, v =>
    if k' = k then (k, v) :: rest else (k', v') :: insertA rest k v

/-- Append to the list stored at a key (Python `d.setdefault(k, []).append(x)`). -/
def appendA : List (κ × List α) → κ → α → List (κ × List α)
  | [], k, x => [(k, [x])]
  | (k', xs) :: rest, k, x =>
    if k' = k then (k', xs ++ [x]) :: rest else (k', xs) :: appendA rest k x

end AssocHelpers

/-! ### Character-list implementations of the Python string operations

Core `String.trim`, `String.replace`, `String.splitOn` and
`String.startsWith` are iterator-based and do not reduce inside the kernel,
so the embedding uses these executable equivalents instead. -/

/-- Whether the first character list is a leading segment of the second. -/
def leadsChars : List Char → List Char → Bool
  | [], _ => true
  | _ :: _, [] => false
  | a :: as, b :: bs => a = b && leadsChars as bs

/-- Whether `sub` occurs contiguously inside `l`. -/
def containsSub (sub : List Char) : List Char → Bool
  | [] => sub.isEmpty
  | c :: rest => leadsChars sub (c :: rest) || containsSub sub rest

/-- Whether `sub` occurs as a contiguous substring of `s`. -/
def strContains (s sub : String) : Bool := containsSub sub.data s.data

/-- Drop leading whitespace characters. -/
def dropWS : List Char → List Char
  | [] => []
  | c :: cs => if c.isWhitespace then dropWS cs else c :: cs

/-- Python `str.strip()`: remove leading and trailing whitespace. -/
def pyStrip (s : String) : String :=
  String.mk ((dropWS (dropWS s.data).reverse).reverse)

/-- Python `s.startswith(pre)`. -/
def pyStartsWith (s pre : String) : Bool := leadsChars pre.data s.data

/-- Fuel-driven replacement of every non-overlapping occurrence of `old`
(left to right), as Python `str.replace`; the fuel is the input length, which
each step consumes at least one character of. -/
def replaceAux (old new : List Char) : Nat → List Char → List Char
  | _, [] => []
  | 0, l => l
  | fuel + 1, c :: cs =>
    if leadsChars old (c :: cs) && !old.isEmpty then
      new ++ replaceAux old new fuel ((c :: cs).drop old.length)
    else c :: replaceAux old new fuel cs

/-- Python `s.replace(old, new)` for non-empty `old`. -/
def pyReplace (s old new : String) : String :=
  String.mk (replaceAux old.data new.data s.data.length s.data)

/-- Python `s.split("/")[-1]`: the suffix after the last slash. -/
def afterLastSlash (s : String) : String :=
  String.mk (s.data.reverse.takeWhile (fun c => c ≠ '/')).reverse

namespace Checker

/-! ### Data model of `scripts/checker.py` -/

/-- Sender of a Telegram message (`msg["from"]`). -/
structure User where
  first_name : Option String
  is_bot : Bool
deriving DecidableEq, Repr

/-- The chat a message was posted in (`msg["chat"]`). -/
structure Chat where
  id : Int
deriving DecidableEq, Repr

/-- A Telegram message as consumed by the checker.  The `date` field is part
of the transport payload (the message's own timestamp); `checker.py` never
reads it, but it is needed to even state what "the message's timestamp"
means. -/
structure Message where
  chat : Chat
  message_thread_id : Option Int
  date : Int
  from_user : Option User
deriving DecidableEq, Repr

/-- One element of the `getUpdates` result. -/
structure Update where
  update_id : Nat
  message : Option Message
deriving DecidableEq, Repr

/-- One entry of `config["topic_pairs"]` as read by `checker.py`. -/
structure TopicPair where
  pbp_topic_id : Int
  chat_topic_id : Int
  name : String
deriving DecidableEq, Repr

/-- The configuration fields `checker.py` reads.  `alert_after_hours` is
`Option` because the code reads it with `config.get("alert_after_hours", 4)`. -/
structure Config where
  group_id : Int
  alert_after_hours : Option Nat
  topic_pairs : List TopicPair
deriving DecidableEq, Repr

/-- The per-topic record written by `process_updates` into `state["topics"]`.
`last_user` is `Option` because `check_and_alert` reads it with
`topic_state.get("last_user", "someone")`. -/
structure TopicRecord where
  last_message_time : Int
  last_user : Option String
  campaign_name : String
deriving DecidableEq, Repr

/-- The persisted state document `{offset, topics, last_alerts}`. -/
structure RunState where
  offset : Nat
  topics : List (String × TopicRecord)
  last_alerts : List (String × Int)
deriving DecidableEq, Repr

/-- The `pbp_topic_ids` dict built at the top of `process_updates`:
`str(pair["pbp_topic_id"]) -> pair["name"]`. -/
def build_pbp_topic_ids (pairs : List TopicPair) : List (String × String) :=
  pairs.foldl (fun m pair => insertA m (toString pair.pbp_topic_id) pair.name) []

/-- Loop body of `process_updates` (`checker.py` lines 154–187): advance the
offset from the update id, then run the filter chain, and on success replace
the topic's record.  `now` stands for `datetime.now(timezone.utc)`. -/
def processStep (group_id : Int) (pbp_topic_ids : List (String × String)) (now : Int)
    (acc : Nat × RunState) (update : Update) : Nat × RunState :=
  let new_offset := max acc.1 (update.update_id + 1)
  match update.message with
  | none => (new_offset, acc.2)
  | some msg =>
    if msg.chat.id ≠ group_id then (new_offset, acc.2)
    else
      match msg.message_thread_id with
      | none => (new_offset, acc.2)
      | some thread_id =>
        let thread_id_str := toString thread_id
        match lookupA pbp_topic_ids thread_id_str with
        | none => (new_offset, acc.2)
        | some campaign_name =>
          let from_user := msg.from_user.getD ⟨none, false⟩
          if from_user.is_bot then (new_offset, acc.2)
          else
            let user_name := from_user.first_name.getD "Someone"
            (new_offset,
              { acc.2 with
                topics := insertA acc.2.topics thread_id_str
                  ⟨now, some user_name, campaign_name⟩ })

/-- Embedding of `process_updates(updates, config, state)` (`checker.py` lines 144–189).
Returns the new offset together with the mutated state. -/
def process_updates (updates : List Update) (config : Config) (state : RunState)
    (now : Int) : Nat × RunState :=
  let group_id := config.group_id
  let pbp_topic_ids := build_pbp_topic_ids config.topic_pairs
  updates.foldl (processStep group_id pbp_topic_ids now) (state.offset, state)

/-- Largest `update_id` in a batch (0 for the empty batch). -/
def maxUpdateId (updates : List Update) : Nat :=
  (updates.map (fun u => u.update_id)).foldl max 0

/-- Whether one update would pass the whole filter chain of `process_updates`
for the topic keyed by the string `t`, and if so the campaign name and the
display name that get recorded.  Derived from the filter chain at
`checker.py` lines 158–179. -/
def qualifying (config : Config) (t : String) (u : Update) : Option (String × String) :=
  match u.message with
  | none => none
  | some msg =>
    if msg.chat.id ≠ config.group_id then none
    else
      match msg.message_thread_id with
      | none => none
      | some thread_id =>
        if toString thread_id ≠ t then none
        else
          match lookupA (build_pbp_topic_ids config.topic_pairs) (toString thread_id) with
          | none => none
          | some campaign_name =>
            let from_user := msg.from_user.getD ⟨none, false⟩
            if from_user.is_bot then none
            else some (campaign_name, from_user.first_name.getD "Someone")

/-- The last update of the batch that qualifies for topic key `t` (the one
whose write survives, since the loop runs in delivery order). -/
def lastQualifying (config : Config) (t : String) (updates : List Update) :
    Option (String × String) :=
  updates.foldl (fun acc u => (qualifying config t u).orElse (fun _ => acc)) none

/-! ### `check_and_alert` -/

/-- The effective threshold: `config.get("alert_after_hours", 4)`. -/
def alertHours (config : Config) : Nat :=
  config.alert_after_hours.getD 4

/-- The `time_str` built at `checker.py` lines 229–237 from the elapsed
whole hours. -/
def alert_time_str (hours_int : Nat) : String :=
  let days := hours_int / 24
  let remaining_hours := hours_int % 24
  if days > 0 then s!"{days}d {remaining_hours}h" else s!"{hours_int}h"

/-- The alert text built at `checker.py` lines 239–242. -/
def alert_message (name time_str last_user : String) : String :=
  s!"No new posts in {name} PBP for {time_str}.\nLast post was from {last_user}."

/-- Record of one `send_message` call made by `check_and_alert`, tagged with
the topic pair being processed (`pbp_id`) and the transport's verdict
(`ok`) — instrumentation of the loop body. -/
structure SentAlert where
  pbp_id : String
  chat_topic_id : Int
  text : String
  ok : Bool
deriving DecidableEq, Repr

/-- Loop body of `check_and_alert` (`checker.py` lines 201–250) for one
topic pair.  `send` is the transport oracle: success/failure of a
`send_message` call. -/
def alertStep (group_id : Int) (alert_hours : Nat) (now : Int)
    (send : Int → Int → String → Bool)
    (acc : RunState × List SentAlert) (pair : TopicPair) : RunState × List SentAlert :=
  let (st, sent) := acc
  let pbp_id_str := toString pair.pbp_topic_id
  match lookupA st.topics pbp_id_str with
  | none => (st, sent)
  | some topic_state =>
    let last_time := topic_state.last_message_time
    let elapsed := now - last_time
    if elapsed < (alert_hours : Int) * 3600 then (st, sent)
    else
      let cooldown_hit : Bool :=
        match lookupA st.last_alerts pbp_id_str with
        | some last_alert => decide (now - last_alert < (alert_hours : Int) * 3600)
        | none => false
      if cooldown_hit then (st, sent)
      else
        let hours_int := elapsed.toNat / 3600
        let last_user := topic_state.last_user.getD "someone"
        let time_str := alert_time_str hours_int
        let message := alert_message pair.name time_str last_user
        let ok := send group_id pair.chat_topic_id message
        let sent := sent ++ [⟨pbp_id_str, pair.chat_topic_id, message, ok⟩]
        if ok then
          ({ st with last_alerts := insertA st.last_alerts pbp_id_str now }, sent)
        else (st, sent)

/-- Embedding of `check_and_alert(config, state)` (`checker.py` lines 192–250).  Returns
the mutated state and the list of attempted sends. -/
def check_and_alert (config : Config) (state : RunState) (now : Int)
    (send : Int → Int → String → Bool) : RunState × List SentAlert :=
  let group_id := config.group_id
  let alert_hours := alertHours config
  config.topic_pairs.foldl (alertStep group_id alert_hours now send) (state, [])

/-! ### Concrete fixtures used by witnesses and counterexamples -/

/-- A one-pair configuration: group 1, campaign "Alpha" on PBP topic 100,
alerts to chat topic 200, threshold 4 hours. -/
def exCfg : Config := ⟨1, some 4, [⟨100, 200, "Alpha"⟩]⟩

/-- A qualifying message in group 1, thread 100, from a human named Alice,
carrying its own timestamp `d`. -/
def exMsg (d : Int) : Message := ⟨⟨1⟩, some 100, d, some ⟨some "Alice", false⟩⟩

/-- An update wrapping `exMsg`. -/
def exUpd (i : Nat) (d : Int) : Update := ⟨i, some (exMsg d)⟩

/-- A prior state with offset 5 and nothing tracked. -/
def exState : RunState := ⟨5, [], []⟩

/-- A state where topic 100 was last active at time 0 and was already
alerted at time 25200 (3 hours before the `now` of 36000 used by the C5
witness). -/
def exStateCooldown : RunState := ⟨0, [("100", ⟨0, some "Alice", "Alpha"⟩)], [("100", 25200)]⟩

/-- A state where topic 100 was last active at time 0 and never alerted. -/
def exStateTracked : RunState := ⟨0, [("100", ⟨0, some "Alice", "Alpha"⟩)], []⟩

end Checker

namespace Importer

/-! ### Data model of `scripts/import_history.py` -/

/-- One element of a Telegram export's `text` list: either a plain string
or a tagged-span object `{"type": ..., "text": ...}` (either key may be
absent). -/
inductive Chunk where
  | str (s : String)
  | obj (tag : Option String) (text : Option String)
deriving DecidableEq, Repr

/-- The value of a message's `text` field: a plain string or a list of
mixed chunks. -/
inductive TextVal where
  | str (s : String)
  | list (chunks : List Chunk)
deriving DecidableEq, Repr

/-- A message record of a Telegram Desktop export, restricted to the fields
`import_history.py` reads.  `Option` marks fields the code reads with a
`get` default. -/
structure ExpMessage where
  id : Option Int
  type : Option String
  message_thread_id : Option Int
  reply_to_message_id : Option Int
  action : Option String
  date : Option String
  from_name : Option String
  from_id : Option String
  text : Option TextVal
  text_entities : List Chunk
  media_type : Option String
  sticker_emoji : Option String
  photo : Option String
  file : Option String
deriving DecidableEq, Repr

/-- A message with every field absent (the export object `{}`). -/
def emptyMsg : ExpMessage :=
  ⟨none, none, none, none, none, none, none, none, none, [], none, none, none, none⟩

/-- Python truthiness of an optional string field (`if msg.get(k):`). -/
def truthy (s : Option String) : Bool := (s.getD "") ≠ ""

/-- One topic pair as read by the importer (`pbp_topic_ids` is a list here,
unlike the checker's singular `pbp_topic_id`). -/
structure ITopicPair where
  name : String
  chat_topic_id : Int
  pbp_topic_ids : List Int
  gm_user_ids : Option (List Int)
deriving DecidableEq, Repr

/-- The configuration fields the importer reads. -/
structure IConfig where
  gm_user_ids : List Int
  topic_pairs : List ITopicPair
deriving DecidableEq, Repr

/-- Embedding of `build_thread_map(config)`: thread id (int) → campaign name. -/
def build_thread_map (config : IConfig) : List (Int × String) :=
  config.topic_pairs.foldl
    (fun m pair => pair.pbp_topic_ids.foldl (fun m tid => insertA m tid pair.name) m) []

/-- Embedding of `build_gm_map(config)`: campaign name → GM user-id strings. -/
def build_gm_map (config : IConfig) : List (String × List String) :=
  let global_gms := config.gm_user_ids.map toString
  config.topic_pairs.foldl
    (fun m pair =>
      match pair.gm_user_ids with
      | some uids => insertA m pair.name (uids.map toString)
      | none => insertA m pair.name global_gms) []

/-- Embedding of `sanitize_dirname(name)`: keep alphanumerics, space, dash, underscore;
strip; replace spaces with underscores. -/
def sanitize_dirname (name : String) : String :=
  let kept := String.mk (name.data.filter fun c => c.isAlphanum || c = ' ' || c = '-' || c = '_')
  pyReplace (pyStrip kept) " " "_"

/-- The `text_entities` fallback block of `extract_text`
(`import_history.py` lines 89–95). -/
def entities_fallback (msg : ExpMessage) : String :=
  let entities := msg.text_entities
  if entities ≠ [] then
    pyStrip (String.join (entities.filterMap fun c =>
      match c with
      | .obj _ t => some (t.getD "")
      | .str _ => none))
  else ""

/-- Embedding of `extract_text(msg)` (`import_history.py` lines 66–95). -/
def extract_text (msg : ExpMessage) : String :=
  match msg.text with
  | some (.str s) =>
    if pyStrip s ≠ "" then pyStrip s else entities_fallback msg
  | some (.list chunks) =>
    if chunks ≠ [] then
      let parts := chunks.map fun c =>
        match c with
        | .str s => s
        | .obj _ t => t.getD ""
      let result := pyStrip (String.join parts)
      if result ≠ "" then result else entities_fallback msg
    else entities_fallback msg
  | none => entities_fallback msg

/-- Embedding of `detect_media(msg)` (`import_history.py` lines 98–126). -/
def detect_media (msg : ExpMessage) : Option String :=
  let media_type := msg.media_type
  if media_type = some "animation" then some "gif"
  else if media_type = some "video_file" then some "video"
  else if media_type = some "voice_message" then some "voice message"
  else if media_type = some "video_message" then some "video note"
  else if media_type = some "sticker" then
    some ("sticker:" ++ msg.sticker_emoji.getD "?")
  else if truthy msg.photo then some "image"
  else if truthy msg.file && !truthy media_type then
    some ("document:" ++ afterLastSlash (msg.file.getD ""))
  else none

/-- Embedding of `format_entry(msg, is_gm)` (`import_history.py` lines 129–157). -/
def format_entry (msg : ExpMessage) (is_gm : Bool) : String :=
  let date_str := msg.date.getD ""
  let ts := pyReplace (date_str.take 19) "T" " "
  let name := msg.from_name.getD "Unknown"
  let role_tag := if is_gm then " [GM]" else ""
  let text := extract_text msg
  let media := detect_media msg
  let parts : List String :=
    match media with
    | some m =>
      if pyStartsWith m "sticker:" then
        let emoji := m.drop 8
        [s!"*[sticker {emoji}]*"]
      else if pyStartsWith m "document:" then
        let fname := m.drop 9
        [s!"*[{fname}]*"]
      else [s!"*[{m}]*"]
    | none => []
  let parts := if text ≠ "" then parts ++ [text] else parts
  let content := if parts ≠ [] then String.intercalate " " parts else "*[empty message]*"
  s!"**{name}**{role_tag} ({ts}):\n{content}\n"

/-! ### Sorting (Python `sorted`, a stable sort by key) -/

/-- Lexicographic order on code points, as Python compares strings. -/
def strLeB : List Char → List Char → Bool
  | [], _ => true
  | _ :: _, [] => false
  | a :: as, b :: bs =>
    if a.val < b.val then true
    else if b.val < a.val then false
    else strLeB as bs

def strLe (a b : String) : Bool := strLeB a.data b.data

/-- Sort key of `sorted(msgs, key=lambda m: m.get("date", ""))`. -/
def msgLe (m1 m2 : ExpMessage) : Bool := strLe (m1.date.getD "") (m2.date.getD "")

/-- Sort key of `sorted(d.items())` for string-keyed dicts (keys are
distinct, so the tuple comparison never goes past the key). -/
def keyLe {α : Type} (p1 p2 : String × α) : Bool := strLe p1.1 p2.1

def insertSorted (le : α → α → Bool) (x : α) : List α → List α
  | [] => [x]
  | y :: ys => if le x y then x :: y :: ys else y :: insertSorted le x ys

/-- Stable insertion sort; extensionally equal to Python's `sorted` (stable
sorts by the same key agree on output). -/
def sortBy (le : α → α → Bool) : List α → List α
  | [] => []
  | x :: xs => insertSorted le x (sortBy le xs)

/-! ### The import pipeline -/

/-- Python logical-or of the two thread fields (`msg.get("message_thread_id") or
msg.get("reply_to_message_id")`): a present-but-zero id is falsy. -/
def orTruthy (a b : Option Int) : Option Int :=
  match a with
  | some t => if t = 0 then b else some t
  | none => b

/-- The classification filter of `import_messages` (`import_history.py`
lines 192–206): `some campaign` iff the record is an ordinary message on a
configured PBP thread and not a service action. -/
def eligible (thread_map : List (Int × String)) (msg : ExpMessage) : Option String :=
  if msg.type ≠ some "message" then none
  else
    match orTruthy msg.message_thread_id msg.reply_to_message_id with
    | none => none
    | some thread_id =>
      match lookupA thread_map thread_id with
      | none => none
      | some campaign_name =>
        if truthy msg.action then none else some campaign_name

/-- The `pbp_messages` grouping (`import_history.py` lines 191–207):
campaign name → its messages in export order. -/
def groupCampaigns (thread_map : List (Int × String)) (msgs : List ExpMessage) :
    List (String × List ExpMessage) :=
  msgs.foldl (fun acc msg =>
    match eligible thread_map msg with
    | some campaign_name => appendA acc campaign_name msg
    | none => acc) []

/-- A campaign directory: the `.imported_ids` tracker (modelled as a list
used through membership) and the month-named transcript files, each a list
of written chunks. -/
structure CampaignFS where
  imported_ids : List String
  month_files : List (String × List String)
deriving DecidableEq, Repr

/-- The `data/pbp_logs` tree: directory name → campaign directory. -/
abbrev FS := List (String × CampaignFS)

/-- Embedding of `get_imported_ids(campaign_dir)`: the persisted id set, empty when the
tracker file does not exist. -/
def get_imported_ids (fs : FS) (dir_name : String) : List String :=
  match lookupA fs dir_name with
  | some cdir => cdir.imported_ids
  | none => []

/-- Embedding of `campaign_dir.mkdir(parents=True, exist_ok=True)`. -/
def ensureDir (fs : FS) (dir_name : String) : FS :=
  match lookupA fs dir_name with
  | some _ => fs
  | none => insertA fs dir_name ⟨[], []⟩

/-- Embedding of `str(msg.get("id", ""))`. -/
def idStr (msg : ExpMessage) : String :=
  match msg.id with
  | some n => toString n
  | none => ""

/-- Embedding of `msg.get("date", "")[:7]` — the `YYYY-MM` month key. -/
def date7 (msg : ExpMessage) : String := (msg.date.getD "").take 7

/-- The counting loop of `import_messages` (`import_history.py` lines
234–246): skip already-imported ids and dateless messages, group the rest by
month and count them. -/
def countLoop (imported_ids : List String) :
    List (String × List ExpMessage) × Nat → List ExpMessage →
    List (String × List ExpMessage) × Nat
  | acc, [] => acc
  | (by_month, cnt), msg :: rest =>
    if imported_ids.contains (idStr msg) then countLoop imported_ids (by_month, cnt) rest
    else if date7 msg = "" then countLoop imported_ids (by_month, cnt) rest
    else countLoop imported_ids (appendA by_month (date7 msg) msg, cnt + 1) rest

/-- The header written when a month file is created
(`import_history.py` lines 266–268). -/
def month_header (campaign_name month_str : String) : List String :=
  [s!"# {campaign_name} — {month_str}\n\n",
   "*PBP transcript archived by PathWarsNudge bot.*\n\n---\n\n"]

/-- Writing one month file (`import_history.py` lines 261–275): append the
formatted entries (with a header when the file is new) and collect the
written message ids. -/
def writeMonth (campaign_name : String) (gm_ids : List String)
    (acc : List (String × List String) × List String)
    (item : String × List ExpMessage) : List (String × List String) × List String :=
  let (files, new_ids) := acc
  let (month_str, month_msgs) := item
  let fname := month_str ++ ".md"
  let chunks := month_msgs.map fun msg =>
    let user_id := pyReplace (msg.from_id.getD "") "user" ""
    let is_gm := gm_ids.contains user_id
    format_entry msg is_gm ++ "\n"
  let files :=
    match lookupA files fname with
    | none => insertA files fname (month_header campaign_name month_str ++ chunks)
    | some old => insertA files fname (old ++ chunks)
  (files, new_ids ++ month_msgs.map idStr)

/-- Embedding of `all_ids = imported_ids | new_ids` (set union on id lists, membership
semantics). -/
def unionIds (a b : List String) : List String :=
  a ++ b.filter fun i => !a.contains i

/-- Per-campaign results dict: campaign name → count of new messages. -/
abbrev Results := List (String × Nat)

/-- Instrumentation: campaign name → the message ids written this run. -/
abbrev WriteLog := List (String × List String)

/-- The per-campaign body of `import_messages` (`import_history.py` lines
221–283). -/
def stepCampaign (gm_map : List (String × List String)) (dry_run : Bool)
    (acc : Results × FS × WriteLog) (entry : String × List ExpMessage) :
    Results × FS × WriteLog :=
  let (results, fs, log) := acc
  let (campaign_name, msgs) := entry
  let dir_name := sanitize_dirname campaign_name
  let gm_ids := (lookupA gm_map campaign_name).getD []
  let fs := if dry_run then fs else ensureDir fs dir_name
  let imported_ids := if dry_run then [] else get_imported_ids fs dir_name
  let sorted_msgs := sortBy msgLe msgs
  let (by_month, new_count) := countLoop imported_ids ([], 0) sorted_msgs
  if new_count = 0 then
    (insertA results campaign_name 0, fs, log)
  else if dry_run then
    (insertA results campaign_name new_count, fs, log)
  else
    let cdir := (lookupA fs dir_name).getD ⟨[], []⟩
    let (files, new_ids) :=
      (sortBy keyLe by_month).foldl (writeMonth campaign_name gm_ids) (cdir.month_files, [])
    let all_ids := unionIds imported_ids new_ids
    let fs := insertA fs dir_name ⟨all_ids, files⟩
    (insertA results campaign_name new_count, fs, insertA log campaign_name new_ids)

/-- Embedding of `import_messages(export_path, dry_run=...)` (`import_history.py` lines
174–285).  `export` is the export file's `messages` list; the filesystem is
passed in and the mutated filesystem returned, together with the results
dict and the per-campaign write log. -/
def import_messages (exportMsgs : List ExpMessage) (config : IConfig) (dry_run : Bool)
    (fs : FS) : Results × FS × WriteLog :=
  let thread_map := build_thread_map config
  let gm_map := build_gm_map config
  let pbp_messages := groupCampaigns thread_map exportMsgs
  (sortBy keyLe pbp_messages).foldl (stepCampaign gm_map dry_run) ([], fs, [])

/-! ### The three textual encodings of `extract_text`, as separate readers -/

/-- First encoding: the `text` field as a plain string, stripped. -/
def read_plain (msg : ExpMessage) : String :=
  match msg.text with
  | some (.str s) => pyStrip s
  | _ => ""

/-- Second encoding: the `text` field as a non-empty list of mixed chunks,
concatenated in order with tags discarded, stripped. -/
def read_list (msg : ExpMessage) : String :=
  match msg.text with
  | some (.list chunks) =>
    if chunks ≠ [] then
      pyStrip (String.join (chunks.map fun c =>
        match c with
        | .str s => s
        | .obj _ t => t.getD ""))
    else ""
  | _ => ""

/-- Whether the `media_type` marker is one of the five values
`detect_media` matches on. -/
def recognized_media_type (mt : Option String) : Bool :=
  mt == some "animation" || mt == some "video_file" || mt == some "voice_message" ||
  mt == some "video_message" || mt == some "sticker"

/-! ### Concrete fixtures used by witnesses and counterexamples -/

/-- A one-campaign configuration: campaign "A" on PBP topic 100. -/
def iCfg : IConfig := ⟨[999], [⟨"A", 10, [100], none⟩]⟩

/-- A plain text message with id 1 on thread 100. -/
def iMsg1 : ExpMessage :=
  { emptyMsg with
    id := some 1, type := some "message", message_thread_id := some 100,
    date := some "2025-06-15T14:30:05", from_name := some "Alice",
    from_id := some "user42", text := some (.str "First post") }

/-- A filesystem where campaign directory "A" has already imported id "1". -/
def fsPre : FS := [("A", ⟨["1"], []⟩)]

/-! ### Specification predicates for the importer's idempotence -/

/-- All message ids appearing in a by-month grouping. -/
def monthIds : List (String × List ExpMessage) → List String
  | [] => []
  | (_, msgs) :: rest => msgs.map idStr ++ monthIds rest

/-- Filesystem growth: every directory keeps existing and every persisted
id set only gains members. -/
def fsLe (fs fs' : FS) : Prop :=
  ∀ dir : String,
    ((lookupA fs dir).isSome = true → (lookupA fs' dir).isSome = true) ∧
    (∀ i : String, i ∈ get_imported_ids fs dir → i ∈ get_imported_ids fs' dir)

/-- A grouped campaign entry is covered by a filesystem: its directory
exists and every dated message's id is in the persisted set. -/
def covered (fs : FS) (entry : String × List ExpMessage) : Prop :=
  (lookupA fs (sanitize_dirname entry.1)).isSome = true ∧
  ∀ m ∈ entry.2, date7 m ≠ "" → idStr m ∈ get_imported_ids fs (sanitize_dirname entry.1)

/-- Every id in the write log was absent from the corresponding persisted
set of the base filesystem. -/
def logFresh (fs0 : FS) (log : WriteLog) : Prop :=
  ∀ p ∈ log, ∀ i ∈ p.2, i ∉ get_imported_ids fs0 (sanitize_dirname p.1)

end Importer

/-! ## Helper lemmas on association lists -/

section AssocLemmas

variable {κ : Type} {α : Type} [DecidableEq κ]

theorem lookupA_insertA_self (m : List (κ × α)) (k : κ) (v : α) :
    lookupA (insertA m k v) k = some v := by
  induction m with
  | nil => simp [insertA, lookupA]
  | cons hd tl ih =>
    obtain ⟨k', v'⟩ := hd
    by_cases h : k' = k <;> simp [insertA, lookupA, h, ih]

theorem lookupA_insertA_ne (m : List (κ × α)) (k k' : κ) (v : α) (h : k' ≠ k) :
    lookupA (insertA m k v) k' = lookupA m k' := by
  have hk : ¬ k = k' := fun hh => h hh.symm
  induction m with
  | nil => simp [insertA, lookupA, hk]
  | cons hd tl ih =>
    obtain ⟨k₀, v₀⟩ := hd
    by_cases h0 : k₀ = k
    · subst h0
      simp [insertA, lookupA, hk]
    · simp [insertA, lookupA, h0, ih]

end AssocLemmas

/-! ## Claim C1: offset computation of `process_updates` -/

namespace Checker

theorem processStep_fst (gid : Int) (pmap : List (String × String)) (now : Int)
    (acc : Nat × RunState) (u : Update) :
    (processStep gid pmap now acc u).1 = max acc.1 (u.update_id + 1) := by
  rcases u with ⟨uid, msg⟩
  cases msg with
  | none => rfl
  | some m =>
    show (processStep gid pmap now acc ⟨uid, some m⟩).1 = _
    unfold processStep
    simp only
    split
    · rfl
    · cases hm : m.message_thread_id with
      | none => rfl
      | some tid =>
        simp only
        cases hl : lookupA pmap (toString tid) with
        | none => rfl
        | some name =>
          simp only
          split <;> rfl

theorem foldl_processStep_fst (gid : Int) (pmap : List (String × String)) (now : Int)
    (l : List Update) (acc : Nat × RunState) :
    (l.foldl (processStep gid pmap now) acc).1 =
      l.foldl (fun o u => max o (u.update_id + 1)) acc.1 := by
  induction l generalizing acc with
  | nil => rfl
  | cons a l ih =>
    rw [List.foldl_cons, List.foldl_cons, ih, processStep_fst]

theorem foldl_nat_max_init (xs : List Nat) (i : Nat) :
    xs.foldl max i = max i (xs.foldl max 0) := by
  induction xs generalizing i with
  | nil => simp
  | cons a xs ih =>
    rw [List.foldl_cons, List.foldl_cons, ih, ih (max 0 a)]
    omega

theorem maxUpdateId_cons (a : Update) (l : List Update) :
    maxUpdateId (a :: l) = max a.update_id (maxUpdateId l) := by
  unfold maxUpdateId
  rw [List.map_cons, List.foldl_cons, foldl_nat_max_init]
  omega

theorem foldl_offset_max_cons (l : List Update) (a : Update) (p : Nat) :
    (a :: l).foldl (fun o u => max o (u.update_id + 1)) p = max p (maxUpdateId (a :: l) + 1) := by
  induction l generalizing a p with
  | nil =>
    rw [List.foldl_cons, List.foldl_nil, maxUpdateId_cons]
    unfold maxUpdateId
    simp only [List.map_nil, List.foldl_nil]
    omega
  | cons b l ih =>
    rw [List.foldl_cons, ih b (max p (a.update_id + 1)), maxUpdateId_cons a (b :: l)]
    omega

/-- C1: for every update batch and prior state, the offset returned by
`process_updates` is `max(previous offset, largest update id + 1)`; the
formula ranges over every update of the batch, whatever its message content,
so updates filtered out of topic tracking still contribute. -/
theorem process_updates_offset_eq (updates : List Update) (config : Config)
    (state : RunState) (now : Int) (h : updates ≠ []) :
    (process_updates updates config state now).1 =
      max state.offset (maxUpdateId updates + 1) := by
  obtain ⟨a, l, rfl⟩ := List.exists_cons_of_ne_nil h
  unfold process_updates
  rw [foldl_processStep_fst, foldl_offset_max_cons]

/-- Witness for C1 at a concrete batch: previous offset 5, update ids 7 and
9 (the second filtered or not, it does not matter), new offset 10. -/
theorem process_updates_offset_eq_witness :
    ([exUpd 7 100, exUpd 9 150] ≠ ([] : List Update)) ∧
    (process_updates [exUpd 7 100, exUpd 9 150] exCfg exState 200).1 =
      max exState.offset (maxUpdateId [exUpd 7 100, exUpd 9 150] + 1) :=
  ⟨by simp, process_updates_offset_eq [exUpd 7 100, exUpd 9 150] exCfg exState 200 (by simp)⟩

/-! ## Claim C2: what `process_updates` records per topic -/

theorem processStep_topics_lookup (config : Config) (now : Int) (t : String)
    (acc : Nat × RunState) (u : Update) :
    lookupA (processStep config.group_id (build_pbp_topic_ids config.topic_pairs) now acc u).2.topics t =
      (match qualifying config t u with
       | some p => some ⟨now, some p.2, p.1⟩
       | none => lookupA acc.2.topics t) := by
  rcases u with ⟨uid, msg⟩
  cases msg with
  | none => rfl
  | some m =>
    unfold processStep qualifying
    simp only
    by_cases hc : m.chat.id ≠ config.group_id
    · simp [hc]
    · simp only [hc, if_false]
      cases hm : m.message_thread_id with
      | none => simp
      | some tid =>
        simp only
        cases hl : lookupA (build_pbp_topic_ids config.topic_pairs) (toString tid) with
        | none =>
          by_cases ht : toString tid ≠ t <;> simp [ht]
        | some name =>
          simp only
          by_cases hb : (m.from_user.getD ⟨none, false⟩).is_bot
          · by_cases ht : toString tid ≠ t <;> simp [hb, ht]
          · by_cases ht : toString tid ≠ t
            · simp [hb, ht, lookupA_insertA_ne _ _ _ _ (Ne.symm ht)]
            · push_neg at ht
              simp [hb, ht, lookupA_insertA_self]

theorem foldl_processStep_topics_lookup (config : Config) (now : Int) (t : String)
    (l : List Update) (acc : Nat × RunState) (q : Option (String × String))
    (state : RunState)
    (hacc : lookupA acc.2.topics t =
      (match q with
       | some p => some ⟨now, some p.2, p.1⟩
       | none => lookupA state.topics t)) :
    lookupA (l.foldl (processStep config.group_id (build_pbp_topic_ids config.topic_pairs) now) acc).2.topics t =
      (match l.foldl (fun a u => (qualifying config t u).orElse fun _ => a) q with
       | some p => some ⟨now, some p.2, p.1⟩
       | none => lookupA state.topics t) := by
  induction l generalizing acc q with
  | nil => exact hacc
  | cons u l ih =>
    rw [List.foldl_cons, List.foldl_cons]
    apply ih
    rw [processStep_topics_lookup]
    cases hq : qualifying config t u with
    | none => simpa [hq, Option.orElse] using hacc
    | some p => simp [hq, Option.orElse]

/-- C2 (amended): characterization of the per-topic record after
`process_updates`.  For every topic key, if some update of the batch
qualifies for it, the record is wholly replaced by the one derived from the
last qualifying update in delivery order — the current processing time
(`now`), the sender's first name (default "Someone"), and the campaign name
from configuration; otherwise the record is untouched. -/
theorem process_updates_topics_eq (updates : List Update) (config : Config)
    (state : RunState) (now : Int) (t : String) :
    lookupA (process_updates updates config state now).2.topics t =
      (match lastQualifying config t updates with
       | some p => some ⟨now, some p.2, p.1⟩
       | none => lookupA state.topics t) := by
  unfold process_updates lastQualifying
  exact foldl_processStep_topics_lookup config now t updates (state.offset, state) none state rfl

/-- C2 counterexample to the claim as stated: at a concrete qualifying
update whose message carries timestamp 100, processed at wall-clock time
200, the recorded `last_message_time` is 200 — the processing time — and not
the message's own timestamp. -/
theorem process_updates_records_now_not_msg_date :
    lookupA (process_updates [exUpd 7 100] exCfg exState 200).2.topics "100" =
      some ⟨200, some "Alice", "Alpha"⟩ ∧
    ((exUpd 7 100).message.map Message.date = some 100) ∧
    (200 : Int) ≠ 100 := by
  refine ⟨?_, rfl, by decide⟩
  decide

/-! ## Claim C10: frame conditions -/

theorem processStep_frame (g : Int) (p : List (String × String)) (n : Int)
    (acc : Nat × RunState) (u : Update) :
    (processStep g p n acc u).2.offset = acc.2.offset ∧
    (processStep g p n acc u).2.last_alerts = acc.2.last_alerts := by
  rcases u with ⟨uid, msg⟩
  cases msg with
  | none => exact ⟨rfl, rfl⟩
  | some m =>
    unfold processStep
    simp only
    split
    · exact ⟨rfl, rfl⟩
    · cases hm : m.message_thread_id with
      | none => exact ⟨rfl, rfl⟩
      | some tid =>
        simp only
        cases hl : lookupA p (toString tid) with
        | none => exact ⟨rfl, rfl⟩
        | some name =>
          simp only
          split <;> exact ⟨rfl, rfl⟩

theorem foldl_processStep_frame (g : Int) (p : List (String × String)) (n : Int)
    (l : List Update) (acc : Nat × RunState) :
    (l.foldl (processStep g p n) acc).2.offset = acc.2.offset ∧
    (l.foldl (processStep g p n) acc).2.last_alerts = acc.2.last_alerts := by
  induction l generalizing acc with
  | nil => exact ⟨rfl, rfl⟩
  | cons u l ih =>
    rw [List.foldl_cons]
    obtain ⟨h1, h2⟩ := ih (processStep g p n acc u)
    obtain ⟨h3, h4⟩ := processStep_frame g p n acc u
    exact ⟨h1.trans h3, h2.trans h4⟩

theorem alertStep_frame (g : Int) (ah : Nat) (n : Int) (send : Int → Int → String → Bool)
    (acc : RunState × List SentAlert) (pair : TopicPair) :
    (alertStep g ah n send acc pair).1.topics = acc.1.topics ∧
    (alertStep g ah n send acc pair).1.offset = acc.1.offset := by
  rcases acc with ⟨st, sent⟩
  unfold alertStep
  simp only
  cases hl : lookupA st.topics (toString pair.pbp_topic_id) with
  | none => exact ⟨rfl, rfl⟩
  | some topic_state =>
    simp only
    split
    · exact ⟨rfl, rfl⟩
    · split
      · exact ⟨rfl, rfl⟩
      · split <;> exact ⟨rfl, rfl⟩

theorem foldl_alertStep_frame (g : Int) (ah : Nat) (n : Int) (send : Int → Int → String → Bool)
    (pairs : List TopicPair) (acc : RunState × List SentAlert) :
    (pairs.foldl (alertStep g ah n send) acc).1.topics = acc.1.topics ∧
    (pairs.foldl (alertStep g ah n send) acc).1.offset = acc.1.offset := by
  induction pairs generalizing acc with
  | nil => exact ⟨rfl, rfl⟩
  | cons pair pairs ih =>
    rw [List.foldl_cons]
    obtain ⟨h1, h2⟩ := ih (alertStep g ah n send acc pair)
    obtain ⟨h3, h4⟩ := alertStep_frame g ah n send acc pair
    exact ⟨h1.trans h3, h2.trans h4⟩

/-- C10: frame conditions.  `check_and_alert` mutates only the
`last_alerts` mapping — the `topics` mapping and the stored offset are
unchanged — and `process_updates` mutates only the `topics` mapping — the
`last_alerts` mapping and the stored offset field are unchanged (the new
offset is returned as a value, not written into the state). -/
theorem frame_conditions (updates : List Update) (config : Config) (state : RunState)
    (now : Int) (send : Int → Int → String → Bool) :
    ((process_updates updates config state now).2.offset = state.offset ∧
     (process_updates updates config state now).2.last_alerts = state.last_alerts) ∧
    ((check_and_alert config state now send).1.topics = state.topics ∧
     (check_and_alert config state now send).1.offset = state.offset) := by
  constructor
  · exact foldl_processStep_frame _ _ _ updates (state.offset, state)
  · exact foldl_alertStep_frame _ _ _ _ config.topic_pairs (state, [])

/-! ## Claim C6: `last_alerts` is advanced exactly on send success -/

theorem alertStep_lastAlerts (g : Int) (ah : Nat) (now : Int)
    (send : Int → Int → String → Bool) (base : List (String × Int))
    (acc : RunState × List SentAlert) (pair : TopicPair) (k : String)
    (hacc : lookupA acc.1.last_alerts k =
      if acc.2.any (fun a => a.pbp_id == k && a.ok) then some now else lookupA base k) :
    lookupA (alertStep g ah now send acc pair).1.last_alerts k =
      if (alertStep g ah now send acc pair).2.any (fun a => a.pbp_id == k && a.ok)
      then some now else lookupA base k := by
  rcases acc with ⟨st, sent⟩
  unfold alertStep
  simp only
  cases hl : lookupA st.topics (toString pair.pbp_topic_id) with
  | none => exact hacc
  | some topic_state =>
    simp only
    split
    · exact hacc
    · split
      · exact hacc
      · split
        · rename_i hok
          by_cases hk : toString pair.pbp_topic_id = k
          · subst hk
            simp [List.any_append, hok, lookupA_insertA_self]
          · simp only [List.any_append, List.any_cons, List.any_nil, hok,
              Bool.and_true, Bool.or_false]
            rw [lookupA_insertA_ne _ _ _ _ (fun hh => hk hh.symm), hacc]
            have hbk : (toString pair.pbp_topic_id == k) = false := by
              simp [hk]
            simp [hbk]
        · rename_i hok
          rw [Bool.not_eq_true] at hok
          simp only [List.any_append, List.any_cons, List.any_nil, hok,
            Bool.and_false, Bool.or_false]
          exact hacc

theorem foldl_alertStep_lastAlerts (g : Int) (ah : Nat) (now : Int)
    (send : Int → Int → String → Bool) (base : List (String × Int))
    (pairs : List TopicPair) (acc : RunState × List SentAlert) (k : String)
    (hacc : lookupA acc.1.last_alerts k =
      if acc.2.any (fun a => a.pbp_id == k && a.ok) then some now else lookupA base k) :
    lookupA (pairs.foldl (alertStep g ah now send) acc).1.last_alerts k =
      if (pairs.foldl (alertStep g ah now send) acc).2.any (fun a => a.pbp_id == k && a.ok)
      then some now else lookupA base k := by
  induction pairs generalizing acc with
  | nil => exact hacc
  | cons pair pairs ih =>
    rw [List.foldl_cons]
    exact ih _ (alertStep_lastAlerts g ah now send base acc pair k hacc)

/-- C6: for every topic key, the `last_alerts` entry after `check_and_alert`
equals the current time exactly when some alert send for that key succeeded,
and is otherwise the entry from the incoming state — in particular, a failed
send leaves the entry untouched, so the next run retries. -/
theorem check_and_alert_lastAlerts_eq (config : Config) (state : RunState) (now : Int)
    (send : Int → Int → String → Bool) (k : String) :
    lookupA (check_and_alert config state now send).1.last_alerts k =
      if (check_and_alert config state now send).2.any (fun a => a.pbp_id == k && a.ok)
      then some now else lookupA state.last_alerts k := by
  unfold check_and_alert
  exact foldl_alertStep_lastAlerts _ _ now send state.last_alerts
    config.topic_pairs (state, []) k rfl

/-! ## Claim C5: the cooldown window suppresses repeat alerts -/

theorem alertStep_cooldown (g : Int) (ah : Nat) (now : Int)
    (send : Int → Int → String → Bool) (acc : RunState × List SentAlert)
    (pair : TopicPair) (k : String) (t : Int)
    (ht : now - t < (ah : Int) * 3600)
    (h1 : lookupA acc.1.last_alerts k = some t)
    (h2 : acc.2.all (fun a => a.pbp_id != k) = true) :
    lookupA (alertStep g ah now send acc pair).1.last_alerts k = some t ∧
    (alertStep g ah now send acc pair).2.all (fun a => a.pbp_id != k) = true := by
  rcases acc with ⟨st, sent⟩
  unfold alertStep
  simp only
  cases hl : lookupA st.topics (toString pair.pbp_topic_id) with
  | none => exact ⟨h1, h2⟩
  | some topic_state =>
    simp only
    split
    · exact ⟨h1, h2⟩
    · split
      · exact ⟨h1, h2⟩
      · rename_i hcool
        have hk : toString pair.pbp_topic_id ≠ k := by
          intro hh
          apply hcool
          rw [hh, h1]
          simpa using ht
        have hbk : (toString pair.pbp_topic_id != k) = true := by
          simp [hk]
        split
        · constructor
          · rw [lookupA_insertA_ne _ _ _ _ (fun hh => hk hh.symm)]
            exact h1
          · simp only [List.all_append, List.all_cons, List.all_nil, hbk]
            simp [h2]
        · constructor
          · exact h1
          · simp only [List.all_append, List.all_cons, List.all_nil, hbk]
            simp [h2]

theorem foldl_alertStep_cooldown (g : Int) (ah : Nat) (now : Int)
    (send : Int → Int → String → Bool) (pairs : List TopicPair)
    (acc : RunState × List SentAlert) (k : String) (t : Int)
    (ht : now - t < (ah : Int) * 3600)
    (h1 : lookupA acc.1.last_alerts k = some t)
    (h2 : acc.2.all (fun a => a.pbp_id != k) = true) :
    lookupA (pairs.foldl (alertStep g ah now send) acc).1.last_alerts k = some t ∧
    (pairs.foldl (alertStep g ah now send) acc).2.all (fun a => a.pbp_id != k) = true := by
  induction pairs generalizing acc with
  | nil => exact ⟨h1, h2⟩
  | cons pair pairs ih =>
    rw [List.foldl_cons]
    obtain ⟨h1', h2'⟩ := alertStep_cooldown g ah now send acc pair k t ht h1 h2
    exact ih _ h1' h2'

/-- C5: for a configured topic pair whose last tracked message is at least
`alertAfterHours` old, if a previous alert for that topic was sent strictly
less than `alertAfterHours` hours ago, `check_and_alert` attempts no send
for that topic and leaves its `last_alerts` entry unchanged. -/
theorem check_and_alert_cooldown_skips (config : Config) (state : RunState) (now : Int)
    (send : Int → Int → String → Bool) (pair : TopicPair) (rec : TopicRecord) (t : Int)
    (hpair : pair ∈ config.topic_pairs)
    (hrec : lookupA state.topics (toString pair.pbp_topic_id) = some rec)
    (helapsed : (alertHours config : Int) * 3600 ≤ now - rec.last_message_time)
    (halert : lookupA state.last_alerts (toString pair.pbp_topic_id) = some t)
    (hcool : now - t < (alertHours config : Int) * 3600) :
    lookupA (check_and_alert config state now send).1.last_alerts
      (toString pair.pbp_topic_id) = some t ∧
    (check_and_alert config state now send).2.all
      (fun a => a.pbp_id != toString pair.pbp_topic_id) = true := by
  unfold check_and_alert
  exact foldl_alertStep_cooldown _ _ now send config.topic_pairs (state, [])
    (toString pair.pbp_topic_id) t hcool halert rfl

/-- Witness for C5: campaign "Alpha", threshold 4 h; last message 10 h ago,
previous alert 3 h ago — no send is attempted and the alert timestamp keeps
its old value. -/
theorem check_and_alert_cooldown_skips_witness :
    ((⟨100, 200, "Alpha"⟩ : TopicPair) ∈ exCfg.topic_pairs ∧
     lookupA exStateCooldown.topics "100" = some ⟨0, some "Alice", "Alpha"⟩ ∧
     (alertHours exCfg : Int) * 3600 ≤ 36000 - 0 ∧
     lookupA exStateCooldown.last_alerts "100" = some 25200 ∧
     36000 - 25200 < (alertHours exCfg : Int) * 3600) ∧
    (lookupA (check_and_alert exCfg exStateCooldown 36000 (fun _ _ _ => true)).1.last_alerts
      "100" = some 25200 ∧
     (check_and_alert exCfg exStateCooldown 36000 (fun _ _ _ => true)).2.all
      (fun a => a.pbp_id != "100") = true) := by
  refine ⟨⟨by decide, by decide, by decide, by decide, by decide⟩, ?_⟩
  exact check_and_alert_cooldown_skips exCfg exStateCooldown 36000 (fun _ _ _ => true)
    ⟨100, 200, "Alpha"⟩ ⟨0, some "Alice", "Alpha"⟩ 25200
    (by decide) (by decide) (by decide) (by decide) (by decide)

/-! ## Claim C9: alert text formatting -/

/-- C9: the elapsed-time component of the alert text is the elapsed time
floored to whole hours, rendered `"{days}d {hours}h"` when at least 24 hours
have elapsed and `"{hours}h"` otherwise; concretely, for topic "Alpha" last
active 5 hours ago (and 5.5 hours ago, showing the flooring) the sent alert
contains "5h" and the last poster's name "Alice", and for 30 hours ago it
contains "1d 6h". -/
theorem alert_text_formatting :
    (∀ h : Nat, 24 ≤ h → alert_time_str h = s!"{h / 24}d {h % 24}h") ∧
    (∀ h : Nat, h < 24 → alert_time_str h = s!"{h}h") ∧
    ((check_and_alert exCfg exStateTracked 18000 (fun _ _ _ => true)).2 =
      [⟨"100", 200, "No new posts in Alpha PBP for 5h.\nLast post was from Alice.", true⟩]) ∧
    ((check_and_alert exCfg exStateTracked 19800 (fun _ _ _ => true)).2 =
      [⟨"100", 200, "No new posts in Alpha PBP for 5h.\nLast post was from Alice.", true⟩]) ∧
    ((check_and_alert exCfg exStateTracked 108000 (fun _ _ _ => true)).2 =
      [⟨"100", 200, "No new posts in Alpha PBP for 1d 6h.\nLast post was from Alice.", true⟩]) ∧
    strContains "No new posts in Alpha PBP for 5h.\nLast post was from Alice." "5h" = true ∧
    strContains "No new posts in Alpha PBP for 5h.\nLast post was from Alice." "Alice" = true ∧
    strContains "No new posts in Alpha PBP for 1d 6h.\nLast post was from Alice." "1d 6h" = true := by
  refine ⟨?_, ?_, by decide, by decide, by decide, by decide, by decide, by decide⟩
  · intro h hh
    simp only [alert_time_str]
    rw [if_pos (Nat.div_pos hh (by norm_num))]
  · intro h hh
    simp only [alert_time_str]
    rw [if_neg]
    simp [Nat.div_eq_of_lt hh]

/-- Witness for C9's conditional clauses at 30 elapsed hours (≥ 24) and 5
elapsed hours (< 24). -/
theorem alert_text_formatting_witness :
    (24 ≤ 30 ∧ alert_time_str 30 = "1d 6h") ∧ (5 < 24 ∧ alert_time_str 5 = "5h") := by
  refine ⟨⟨by decide, ?_⟩, ⟨by decide, ?_⟩⟩
  · rw [alert_text_formatting.1 30 (by decide)]
    decide
  · rw [alert_text_formatting.2.1 5 (by decide)]
    decide

end Checker

namespace Importer

/-! ## Claim C7: the three textual encodings, in precedence order -/

/-- C7: `extract_text` checks the plain-string encoding, then the mixed
chunk-list encoding (tags discarded, concatenated in order), then the
`text_entities` side channel, returning the first non-empty result; in
particular a plain `"hi"` yields `"hi"`, the list `["a ", bold "b"]` yields
`"a b"`, and the empty message yields `""`. -/
theorem extract_text_first_nonempty :
    (∀ msg : ExpMessage, extract_text msg =
      (if read_plain msg ≠ "" then read_plain msg
       else if read_list msg ≠ "" then read_list msg
       else entities_fallback msg)) ∧
    extract_text { emptyMsg with text := some (.str "hi") } = "hi" ∧
    extract_text { emptyMsg with
      text := some (.list [.str "a ", .obj (some "bold") (some "b")]) } = "a b" ∧
    extract_text emptyMsg = "" := by
  refine ⟨?_, by decide, by decide, by decide⟩
  intro msg
  cases hr : msg.text with
  | none => simp [extract_text, read_plain, read_list, hr]
  | some tv =>
    cases tv with
    | str s =>
      by_cases hs : s.trim ≠ "" <;>
        simp [extract_text, read_plain, read_list, hr, hs]
    | list chunks =>
      by_cases hc : chunks = []
      · simp [extract_text, read_plain, read_list, hr, hc]
      · by_cases hres : pyStrip (String.join (chunks.map fun c =>
            match c with
            | .str s => s
            | .obj _ t => t.getD "")) ≠ "" <;>
          simp [extract_text, read_plain, read_list, hr, hc, hres]

/-! ## Claim C8: media detection precedence -/

/-- C8: `detect_media` checks the markers in the fixed precedence order
animation, video file, voice message, video note, sticker (with its emoji),
photo reference, generic file reference with no other media marker, and
returns at most one tag — `none` when nothing matches; in particular
`media_type = "animation"` yields `"gif"`, a photo reference yields
`"image"`, and a message with neither yields `none`. -/
theorem detect_media_precedence :
    (∀ msg : ExpMessage,
      (msg.media_type = some "animation" → detect_media msg = some "gif") ∧
      (msg.media_type = some "video_file" → detect_media msg = some "video") ∧
      (msg.media_type = some "voice_message" → detect_media msg = some "voice message") ∧
      (msg.media_type = some "video_message" → detect_media msg = some "video note") ∧
      (msg.media_type = some "sticker" →
        detect_media msg = some ("sticker:" ++ msg.sticker_emoji.getD "?")) ∧
      (recognized_media_type msg.media_type = false → truthy msg.photo = true →
        detect_media msg = some "image") ∧
      (recognized_media_type msg.media_type = false → truthy msg.photo = false →
        (truthy msg.file && !truthy msg.media_type) = true →
        detect_media msg = some ("document:" ++ afterLastSlash (msg.file.getD ""))) ∧
      (recognized_media_type msg.media_type = false → truthy msg.photo = false →
        (truthy msg.file && !truthy msg.media_type) = false →
        detect_media msg = none)) ∧
    detect_media { emptyMsg with media_type := some "animation" } = some "gif" ∧
    detect_media { emptyMsg with photo := some "x.jpg" } = some "image" ∧
    detect_media emptyMsg = none := by
  refine ⟨?_, by decide, by decide, by decide⟩
  intro msg
  refine ⟨fun h => by simp [detect_media, h], fun h => ?_, fun h => ?_, fun h => ?_,
    fun h => ?_, fun hrec hp => ?_, fun hrec hp hf => ?_, fun hrec hp hf => ?_⟩
  · have h1 : msg.media_type ≠ some "animation" := by simp [h]
    simp [detect_media, h, h1]
  · have h1 : msg.media_type ≠ some "animation" := by simp [h]
    have h2 : msg.media_type ≠ some "video_file" := by simp [h]
    simp [detect_media, h, h1, h2]
  · have h1 : msg.media_type ≠ some "animation" := by simp [h]
    have h2 : msg.media_type ≠ some "video_file" := by simp [h]
    have h3 : msg.media_type ≠ some "voice_message" := by simp [h]
    simp [detect_media, h, h1, h2, h3]
  · have h1 : msg.media_type ≠ some "animation" := by simp [h]
    have h2 : msg.media_type ≠ some "video_file" := by simp [h]
    have h3 : msg.media_type ≠ some "voice_message" := by simp [h]
    have h4 : msg.media_type ≠ some "video_message" := by simp [h]
    simp [detect_media, h, h1, h2, h3, h4]
  · obtain ⟨⟨⟨⟨h1, h2⟩, h3⟩, h4⟩, h5⟩ :
        (((msg.media_type ≠ some "animation" ∧ msg.media_type ≠ some "video_file") ∧
        msg.media_type ≠ some "voice_message") ∧ msg.media_type ≠ some "video_message") ∧
        msg.media_type ≠ some "sticker" := by
      simpa [recognized_media_type] using hrec
    simp [detect_media, h1, h2, h3, h4, h5, hp]
  · obtain ⟨⟨⟨⟨h1, h2⟩, h3⟩, h4⟩, h5⟩ :
        (((msg.media_type ≠ some "animation" ∧ msg.media_type ≠ some "video_file") ∧
        msg.media_type ≠ some "voice_message") ∧ msg.media_type ≠ some "video_message") ∧
        msg.media_type ≠ some "sticker" := by
      simpa [recognized_media_type] using hrec
    simp [detect_media, h1, h2, h3, h4, h5, hp, hf]
  · obtain ⟨⟨⟨⟨h1, h2⟩, h3⟩, h4⟩, h5⟩ :
        (((msg.media_type ≠ some "animation" ∧ msg.media_type ≠ some "video_file") ∧
        msg.media_type ≠ some "voice_message") ∧ msg.media_type ≠ some "video_message") ∧
        msg.media_type ≠ some "sticker" := by
      simpa [recognized_media_type] using hrec
    simp [detect_media, h1, h2, h3, h4, h5, hp, hf]

/-- Witness for C8's conditional clauses: the animation marker yields
`"gif"`, and a bare photo reference yields `"image"`. -/
theorem detect_media_precedence_witness :
    (({ emptyMsg with media_type := some "animation" } : ExpMessage).media_type
        = some "animation" ∧
      detect_media { emptyMsg with media_type := some "animation" } = some "gif") ∧
    (recognized_media_type ({ emptyMsg with photo := some "x.jpg" } : ExpMessage).media_type
        = false ∧
      truthy ({ emptyMsg with photo := some "x.jpg" } : ExpMessage).photo = true ∧
      detect_media { emptyMsg with photo := some "x.jpg" } = some "image") := by
  refine ⟨⟨rfl, ?_⟩, by decide, by decide, ?_⟩
  · exact (detect_media_precedence.1 _).1 rfl
  · exact (detect_media_precedence.1 _).2.2.2.2.2.1 (by decide) (by decide)

/-! ## Claim C4: dry-run counts diverge from real-run counts -/

/-- C4 fails on the code: `import_messages` resets the imported-id set to
empty in dry-run mode (`import_history.py` line 230), so on a state that has
already imported id "1", a dry run reports 1 new message for campaign "A"
while a real run on the very same state imports 0.  The dry run does leave
the filesystem untouched, as the claim's second half says. -/
theorem import_dry_run_count_mismatch :
    (import_messages [iMsg1] iCfg true fsPre).1 = [("A", 1)] ∧
    (import_messages [iMsg1] iCfg false fsPre).1 = [("A", 0)] ∧
    (import_messages [iMsg1] iCfg true fsPre).2.1 = fsPre ∧
    (import_messages [iMsg1] iCfg true fsPre).1 ≠
      (import_messages [iMsg1] iCfg false fsPre).1 := by
  refine ⟨by decide, by decide, by decide, by decide⟩

/-! ## Claim C3: idempotence of the importer -/

theorem mem_insertA {κ α : Type} [DecidableEq κ] (m : List (κ × α)) (k : κ) (v : α)
    (p : κ × α) (hp : p ∈ insertA m k v) : p ∈ m ∨ p = (k, v) := by
  induction m with
  | nil => simpa [insertA] using hp
  | cons hd tl ih =>
    obtain ⟨k', v'⟩ := hd
    by_cases h : k' = k
    · subst h
      rw [insertA, if_pos rfl] at hp
      rcases List.mem_cons.mp hp with h1 | h1
      · exact Or.inr h1
      · exact Or.inl (List.mem_cons_of_mem _ h1)
    · rw [insertA, if_neg h] at hp
      rcases List.mem_cons.mp hp with h1 | h1
      · exact Or.inl (by simp [h1])
      · rcases ih h1 with h2 | h2
        · exact Or.inl (List.mem_cons_of_mem _ h2)
        · exact Or.inr h2

theorem insertA_all_zero (r : Results) (name : String)
    (h : (r.all fun p => p.2 == 0) = true) :
    ((insertA r name 0).all fun p => p.2 == 0) = true := by
  rw [List.all_eq_true] at *
  intro p hp
  rcases mem_insertA r name 0 p hp with h1 | h1
  · exact h p h1
  · simp [h1]

theorem mem_insertSorted {α : Type} (le : α → α → Bool) (x y : α) (l : List α) :
    y ∈ insertSorted le x l ↔ y = x ∨ y ∈ l := by
  induction l with
  | nil => simp [insertSorted]
  | cons a l ih =>
    rw [insertSorted]
    by_cases h : le x a = true
    · rw [if_pos h]
      simp only [List.mem_cons]
    · rw [if_neg h]
      simp only [List.mem_cons, ih]
      tauto

theorem mem_sortBy {α : Type} (le : α → α → Bool) (x : α) (l : List α) :
    x ∈ sortBy le l ↔ x ∈ l := by
  induction l with
  | nil => simp [sortBy]
  | cons a l ih =>
    simp only [sortBy, mem_insertSorted, ih, List.mem_cons]

theorem mem_unionIds (a b : List String) (i : String) :
    i ∈ unionIds a b ↔ i ∈ a ∨ i ∈ b := by
  unfold unionIds
  rw [List.mem_append]
  constructor
  · rintro (h | h)
    · exact Or.inl h
    · exact Or.inr (List.mem_of_mem_filter h)
  · rintro (h | h)
    · exact Or.inl h
    · by_cases ha : i ∈ a
      · exact Or.inl ha
      · refine Or.inr (List.mem_filter.mpr ⟨h, ?_⟩)
        simpa using ha

theorem mem_monthIds_appendA (bm : List (String × List ExpMessage)) (d : String)
    (m : ExpMessage) (i : String) :
    i ∈ monthIds (appendA bm d m) ↔ i ∈ monthIds bm ∨ i = idStr m := by
  induction bm with
  | nil =>
    simp [appendA, monthIds]
  | cons hd rest ih =>
    obtain ⟨k, msgs⟩ := hd
    by_cases h : k = d
    · subst h
      rw [appendA, if_pos rfl]
      simp only [monthIds, List.mem_append, List.map_append]
      simp only [List.map_cons, List.map_nil, List.mem_singleton]
      tauto
    · rw [appendA, if_neg h]
      simp only [monthIds, List.mem_append, ih]
      tauto

theorem mem_monthIds_iff (bm : List (String × List ExpMessage)) (i : String) :
    i ∈ monthIds bm ↔ ∃ p, p ∈ bm ∧ i ∈ p.2.map idStr := by
  induction bm with
  | nil => simp [monthIds]
  | cons hd rest ih =>
    simp only [monthIds, List.mem_append, ih, List.mem_cons]
    constructor
    · rintro (h | ⟨p, hp, hip⟩)
      · exact ⟨hd, Or.inl rfl, h⟩
      · exact ⟨p, Or.inr hp, hip⟩
    · rintro ⟨p, hp | hp, hip⟩
      · subst hp; exact Or.inl hip
      · exact Or.inr ⟨p, hp, hip⟩

theorem mem_monthIds_sortBy (bm : List (String × List ExpMessage)) (i : String) :
    i ∈ monthIds (sortBy keyLe bm) ↔ i ∈ monthIds bm := by
  simp only [mem_monthIds_iff]
  constructor
  · rintro ⟨p, hp, hip⟩
    exact ⟨p, (mem_sortBy keyLe p bm).mp hp, hip⟩
  · rintro ⟨p, hp, hip⟩
    exact ⟨p, (mem_sortBy keyLe p bm).mpr hp, hip⟩

theorem countLoop_skip (imported : List String)
    (acc : List (String × List ExpMessage) × Nat) (l : List ExpMessage)
    (h : ∀ m ∈ l, imported.contains (idStr m) = true ∨ date7 m = "") :
    countLoop imported acc l = acc := by
  induction l generalizing acc with
  | nil => rfl
  | cons m rest ih =>
    obtain ⟨bm, c⟩ := acc
    have htail : ∀ x ∈ rest, imported.contains (idStr x) = true ∨ date7 x = "" :=
      fun x hx => h x (List.mem_cons_of_mem _ hx)
    rcases h m (List.mem_cons_self _ _) with h1 | h1
    · rw [countLoop, if_pos h1]
      exact ih _ htail
    · by_cases h2 : imported.contains (idStr m) = true
      · rw [countLoop, if_pos h2]
        exact ih _ htail
      · rw [countLoop, if_neg h2, if_pos h1]
        exact ih _ htail

theorem countLoop_count_le (imported : List String) (bm : List (String × List ExpMessage))
    (c : Nat) (l : List ExpMessage) :
    c ≤ (countLoop imported (bm, c) l).2 := by
  induction l generalizing bm c with
  | nil => exact Nat.le_refl c
  | cons m rest ih =>
    rw [countLoop]
    split
    · exact ih bm c
    · split
      · exact ih bm c
      · exact Nat.le_trans (Nat.le_succ c) (ih _ (c + 1))

theorem countLoop_zero (imported : List String) (bm : List (String × List ExpMessage))
    (c : Nat) (l : List ExpMessage)
    (h : (countLoop imported (bm, c) l).2 = c) :
    ∀ m ∈ l, date7 m ≠ "" → imported.contains (idStr m) = true := by
  induction l generalizing bm c with
  | nil => intro m hm; cases hm
  | cons m rest ih =>
    intro x hx hdx
    rw [countLoop] at h
    by_cases h1 : imported.contains (idStr m) = true
    · rw [if_pos h1] at h
      rcases List.mem_cons.mp hx with rfl | hx'
      · exact h1
      · exact ih bm c h x hx' hdx
    · rw [if_neg h1] at h
      by_cases h2 : date7 m = ""
      · rw [if_pos h2] at h
        rcases List.mem_cons.mp hx with rfl | hx'
        · exact absurd h2 hdx
        · exact ih bm c h x hx' hdx
      · rw [if_neg h2] at h
        have := countLoop_count_le imported (appendA bm (date7 m) m) (c + 1) rest
        omega

theorem countLoop_bm_mono (imported : List String) (bm : List (String × List ExpMessage))
    (c : Nat) (l : List ExpMessage) (i : String) (h : i ∈ monthIds bm) :
    i ∈ monthIds (countLoop imported (bm, c) l).1 := by
  induction l generalizing bm c with
  | nil => exact h
  | cons m rest ih =>
    rw [countLoop]
    split
    · exact ih bm c h
    · split
      · exact ih bm c h
      · exact ih _ _ ((mem_monthIds_appendA bm (date7 m) m i).mpr (Or.inl h))

theorem countLoop_complete (imported : List String) (l : List ExpMessage) :
    ∀ m ∈ l, date7 m ≠ "" → imported.contains (idStr m) = true ∨
      idStr m ∈ monthIds (countLoop imported ([], 0) l).1 := by
  suffices hgen : ∀ (bm : List (String × List ExpMessage)) (c : Nat), ∀ m ∈ l, date7 m ≠ "" →
      imported.contains (idStr m) = true ∨
      idStr m ∈ monthIds (countLoop imported (bm, c) l).1 by
    exact hgen [] 0
  induction l with
  | nil => intro bm c m hm; cases hm
  | cons m rest ih =>
    intro bm c x hx hdx
    rw [countLoop]
    by_cases h1 : imported.contains (idStr m) = true
    · rw [if_pos h1]
      rcases List.mem_cons.mp hx with rfl | hx'
      · exact Or.inl h1
      · exact ih bm c x hx' hdx
    · rw [if_neg h1]
      by_cases h2 : date7 m = ""
      · rw [if_pos h2]
        rcases List.mem_cons.mp hx with rfl | hx'
        · exact absurd h2 hdx
        · exact ih bm c x hx' hdx
      · rw [if_neg h2]
        rcases List.mem_cons.mp hx with rfl | hx'
        · right
          exact countLoop_bm_mono imported _ _ rest (idStr x)
            ((mem_monthIds_appendA bm (date7 x) x (idStr x)).mpr (Or.inr rfl))
        · exact ih _ _ x hx' hdx

theorem countLoop_fresh (imported : List String) (l : List ExpMessage) (i : String)
    (hi : i ∈ monthIds (countLoop imported ([], 0) l).1) :
    i ∉ imported := by
  suffices hgen : ∀ (bm : List (String × List ExpMessage)) (c : Nat),
      i ∈ monthIds (countLoop imported (bm, c) l).1 → i ∈ monthIds bm ∨ i ∉ imported by
    rcases hgen [] 0 hi with h | h
    · simp [monthIds] at h
    · exact h
  clear hi
  induction l with
  | nil => intro bm c hi; exact Or.inl hi
  | cons m rest ih =>
    intro bm c hi
    rw [countLoop] at hi
    by_cases h1 : imported.contains (idStr m) = true
    · rw [if_pos h1] at hi
      exact ih bm c hi
    · rw [if_neg h1] at hi
      by_cases h2 : date7 m = ""
      · rw [if_pos h2] at hi
        exact ih bm c hi
      · rw [if_neg h2] at hi
        rcases ih _ _ hi with h | h
        · rcases (mem_monthIds_appendA bm (date7 m) m i).mp h with h3 | h3
          · exact Or.inl h3
          · subst h3
            right
            intro hmem
            exact h1 (by simpa [List.contains] using List.elem_iff.mpr hmem)
        · exact Or.inr h

theorem writeMonth_fold_ids (cn : String) (gm : List String)
    (items : List (String × List ExpMessage)) (files : List (String × List String))
    (acc : List String) (i : String) :
    i ∈ (items.foldl (writeMonth cn gm) (files, acc)).2 ↔ i ∈ acc ∨ i ∈ monthIds items := by
  induction items generalizing files acc with
  | nil => simp [monthIds]
  | cons item rest ih =>
    obtain ⟨month, msgs⟩ := item
    rw [List.foldl_cons]
    rw [writeMonth]
    simp only
    rw [ih]
    simp only [monthIds, List.mem_append, List.mem_map]
    constructor
    · rintro ((h | h) | h)
      · exact Or.inl h
      · exact Or.inr (Or.inl (by simpa [List.mem_map] using h))
      · exact Or.inr (Or.inr h)
    · rintro (h | (h | h))
      · exact Or.inl (Or.inl h)
      · exact Or.inl (Or.inr (by simpa [List.mem_map] using h))
      · exact Or.inr h

theorem get_imported_ids_ensureDir (fs : FS) (d d' : String) :
    get_imported_ids (ensureDir fs d) d' = get_imported_ids fs d' := by
  unfold ensureDir
  cases h : lookupA fs d with
  | some c => rfl
  | none =>
    unfold get_imported_ids
    by_cases hd : d' = d
    · subst hd
      rw [lookupA_insertA_self, h]
    · rw [lookupA_insertA_ne _ _ _ _ hd]

theorem ensureDir_isSome (fs : FS) (d : String) :
    (lookupA (ensureDir fs d) d).isSome = true := by
  unfold ensureDir
  cases h : lookupA fs d with
  | some c => simp [h]
  | none => simp [lookupA_insertA_self]

theorem ensureDir_isSome_mono (fs : FS) (d d' : String)
    (h : (lookupA fs d').isSome = true) :
    (lookupA (ensureDir fs d) d').isSome = true := by
  unfold ensureDir
  cases hl : lookupA fs d with
  | some c => exact h
  | none =>
    by_cases hd : d' = d
    · subst hd
      simp [lookupA_insertA_self]
    · rw [lookupA_insertA_ne _ _ _ _ hd]
      exact h

theorem ensureDir_of_isSome (fs : FS) (d : String)
    (h : (lookupA fs d).isSome = true) : ensureDir fs d = fs := by
  unfold ensureDir
  cases hl : lookupA fs d with
  | some c => rfl
  | none => rw [hl] at h; cases h

theorem fsLe_refl (fs : FS) : fsLe fs fs := fun _ => ⟨id, fun _ h => h⟩

theorem fsLe_trans {a b c : FS} (h1 : fsLe a b) (h2 : fsLe b c) : fsLe a c :=
  fun d => ⟨fun h => (h2 d).1 ((h1 d).1 h), fun i hi => (h2 d).2 i ((h1 d).2 i hi)⟩

theorem fsLe_ensureDir (fs : FS) (d : String) : fsLe fs (ensureDir fs d) := by
  intro dir
  constructor
  · exact ensureDir_isSome_mono fs d dir
  · intro i hi
    rw [get_imported_ids_ensureDir]
    exact hi

theorem fsLe_insert_grow (fs : FS) (d : String) (c : CampaignFS)
    (hsub : ∀ i, i ∈ get_imported_ids fs d → i ∈ c.imported_ids) :
    fsLe fs (insertA fs d c) := by
  intro dir
  by_cases hd : dir = d
  · subst hd
    constructor
    · intro _
      simp [lookupA_insertA_self]
    · intro i hi
      unfold get_imported_ids
      rw [lookupA_insertA_self]
      exact hsub i hi
  · constructor
    · intro h
      rw [lookupA_insertA_ne _ _ _ _ hd]
      exact h
    · intro i hi
      unfold get_imported_ids
      rw [lookupA_insertA_ne _ _ _ _ hd]
      exact hi

theorem covered_mono {fs fs' : FS} (h : fsLe fs fs') (e : String × List ExpMessage)
    (hc : covered fs e) : covered fs' e :=
  ⟨(h _).1 hc.1, fun m hm hd => (h _).2 _ (hc.2 m hm hd)⟩

/-- The shape of a real-run (`dry_run = false`) campaign step, with the
tuple destructuring and the boolean tests reduced. -/
theorem stepCampaign_false_eq (gm : List (String × List String)) (results : Results)
    (fs : FS) (log : WriteLog) (name : String) (msgs : List ExpMessage) :
    stepCampaign gm false (results, fs, log) (name, msgs) =
      (let dir := sanitize_dirname name
       let fs1 := ensureDir fs dir
       let imported := get_imported_ids fs1 dir
       let res := countLoop imported ([], 0) (sortBy msgLe msgs)
       if res.2 = 0 then (insertA results name 0, fs1, log)
       else
         let cdir := (lookupA fs1 dir).getD ⟨[], []⟩
         let fn := (sortBy keyLe res.1).foldl
           (writeMonth name ((lookupA gm name).getD [])) (cdir.month_files, [])
         (insertA results name res.2,
          insertA fs1 dir ⟨unionIds imported fn.2, fn.1⟩,
          insertA log name fn.2)) := by
  rfl

theorem stepCampaign_idle (gm : List (String × List String)) (results : Results)
    (fs : FS) (log : WriteLog) (name : String) (msgs : List ExpMessage)
    (hc : covered fs (name, msgs)) :
    stepCampaign gm false (results, fs, log) (name, msgs) =
      (insertA results name 0, fs, log) := by
  obtain ⟨hsome, hids⟩ := hc
  rw [stepCampaign_false_eq]
  simp only
  rw [ensureDir_of_isSome fs _ hsome]
  have hskip : countLoop (get_imported_ids fs (sanitize_dirname name)) ([], 0)
      (sortBy msgLe msgs) = ([], 0) := by
    apply countLoop_skip
    intro m hm
    by_cases hd : date7 m = ""
    · exact Or.inr hd
    · left
      have hmem := hids m ((mem_sortBy msgLe m msgs).mp hm) hd
      simpa [List.contains] using List.elem_iff.mpr hmem
  rw [hskip]
  rfl

theorem stepCampaign_covers (gm : List (String × List String)) (results : Results)
    (fs : FS) (log : WriteLog) (name : String) (msgs : List ExpMessage) :
    covered (stepCampaign gm false (results, fs, log) (name, msgs)).2.1 (name, msgs) := by
  rw [stepCampaign_false_eq]
  simp only
  split
  · rename_i hzero
    refine ⟨ensureDir_isSome fs _, ?_⟩
    intro m hm hd
    have hcont := countLoop_zero _ [] 0 _ hzero m ((mem_sortBy msgLe m msgs).mpr hm) hd
    exact List.elem_iff.mp (by simpa [List.contains] using hcont)
  · refine ⟨by simp [lookupA_insertA_self], ?_⟩
    intro m hm hd
    show idStr m ∈ get_imported_ids _ _
    unfold get_imported_ids
    rw [lookupA_insertA_self]
    rw [mem_unionIds]
    rcases countLoop_complete _ _ m ((mem_sortBy msgLe m msgs).mpr hm) hd with h | h
    · exact Or.inl (List.elem_iff.mp (by simpa [List.contains] using h))
    · right
      rw [writeMonth_fold_ids]
      exact Or.inr ((mem_monthIds_sortBy _ _).mpr h)

theorem stepCampaign_mono (gm : List (String × List String)) (results : Results)
    (fs : FS) (log : WriteLog) (name : String) (msgs : List ExpMessage) :
    fsLe fs (stepCampaign gm false (results, fs, log) (name, msgs)).2.1 := by
  rw [stepCampaign_false_eq]
  simp only
  split
  · exact fsLe_ensureDir fs _
  · refine fsLe_trans (fsLe_ensureDir fs _) (fsLe_insert_grow _ _ _ ?_)
    intro i hi
    exact (mem_unionIds _ _ i).mpr (Or.inl hi)

theorem stepCampaign_logFresh (gm : List (String × List String)) (results : Results)
    (fs : FS) (log : WriteLog) (name : String) (msgs : List ExpMessage) (fs0 : FS)
    (hle : fsLe fs0 fs) (hlog : logFresh fs0 log) :
    logFresh fs0 (stepCampaign gm false (results, fs, log) (name, msgs)).2.2 := by
  rw [stepCampaign_false_eq]
  simp only
  split
  · exact hlog
  · intro p hp i hi
    rcases mem_insertA _ _ _ p hp with h | h
    · exact hlog p h i hi
    · subst h
      rw [writeMonth_fold_ids] at hi
      rcases hi with h | h
      · cases h
      · have h2 := (mem_monthIds_sortBy _ _).mp h
        have h3 := countLoop_fresh _ _ i h2
        intro hmem
        exact h3 (((fsLe_trans hle (fsLe_ensureDir fs _)) (sanitize_dirname name)).2 i hmem)

theorem foldl_step_fsLe (gm : List (String × List String))
    (gl : List (String × List ExpMessage)) (acc : Results × FS × WriteLog) :
    fsLe acc.2.1 (gl.foldl (stepCampaign gm false) acc).2.1 := by
  induction gl generalizing acc with
  | nil => exact fsLe_refl _
  | cons e rest ih =>
    rw [List.foldl_cons]
    obtain ⟨r, fs, log⟩ := acc
    obtain ⟨name, msgs⟩ := e
    exact fsLe_trans (stepCampaign_mono gm r fs log name msgs) (ih _)

theorem foldl_step_covers (gm : List (String × List String))
    (gl : List (String × List ExpMessage)) (acc : Results × FS × WriteLog) :
    ∀ e ∈ gl, covered (gl.foldl (stepCampaign gm false) acc).2.1 e := by
  induction gl generalizing acc with
  | nil => intro e he; cases he
  | cons e0 rest ih =>
    intro e he
    rw [List.foldl_cons]
    rcases List.mem_cons.mp he with rfl | he'
    · obtain ⟨r, fs, log⟩ := acc
      obtain ⟨name, msgs⟩ := e
      exact covered_mono (foldl_step_fsLe gm rest _) _
        (stepCampaign_covers gm r fs log name msgs)
    · exact ih _ e he'

theorem foldl_step_idle (gm : List (String × List String)) (fs : FS) :
    ∀ gl : List (String × List ExpMessage), (∀ e ∈ gl, covered fs e) →
    ∀ (r : Results) (log : WriteLog), (r.all fun p => p.2 == 0) = true →
      (gl.foldl (stepCampaign gm false) (r, fs, log)).2.1 = fs ∧
      (gl.foldl (stepCampaign gm false) (r, fs, log)).2.2 = log ∧
      ((gl.foldl (stepCampaign gm false) (r, fs, log)).1.all fun p => p.2 == 0) = true := by
  intro gl
  induction gl with
  | nil => intro _ r log hr; exact ⟨rfl, rfl, hr⟩
  | cons e rest ih =>
    intro hc r log hr
    obtain ⟨name, msgs⟩ := e
    rw [List.foldl_cons,
      stepCampaign_idle gm r fs log name msgs (hc _ (List.mem_cons_self _ _))]
    exact ih (fun x hx => hc x (List.mem_cons_of_mem _ hx)) (insertA r name 0) log
      (insertA_all_zero r name hr)

theorem foldl_step_logFresh (gm : List (String × List String)) (fs0 : FS) :
    ∀ (gl : List (String × List ExpMessage)) (acc : Results × FS × WriteLog),
      fsLe fs0 acc.2.1 → logFresh fs0 acc.2.2 →
      logFresh fs0 (gl.foldl (stepCampaign gm false) acc).2.2 := by
  intro gl
  induction gl with
  | nil => intro acc _ h2; exact h2
  | cons e rest ih =>
    intro acc h1 h2
    rw [List.foldl_cons]
    obtain ⟨r, fs, log⟩ := acc
    obtain ⟨name, msgs⟩ := e
    exact ih _ (fsLe_trans h1 (stepCampaign_mono gm r fs log name msgs))
      (stepCampaign_logFresh gm r fs log name msgs fs0 h1 h2)

/-- C3: the importer is idempotent with respect to the persisted id sets —
running `import_messages` a second time on an identical export reports zero
new messages for every campaign, leaves the whole filesystem (id sets and
month transcript files) bit-for-bit unchanged, and writes nothing — and, for
any export (in particular one overlapping a previous one), every message id
written by a run was absent from the persisted id set before the run, so
already-imported ids are never appended to a month file again. -/
theorem import_messages_idempotent_and_fresh (exportMsgs : List ExpMessage)
    (config : IConfig) (fs0 : FS) (e2 : List ExpMessage) (fsx : FS) :
    (((import_messages exportMsgs config false
        (import_messages exportMsgs config false fs0).2.1).1.all
        fun p => p.2 == 0) = true ∧
     (import_messages exportMsgs config false
        (import_messages exportMsgs config false fs0).2.1).2.1 =
       (import_messages exportMsgs config false fs0).2.1 ∧
     (import_messages exportMsgs config false
        (import_messages exportMsgs config false fs0).2.1).2.2 = []) ∧
    ((import_messages e2 config false fsx).2.2.all fun p =>
      p.2.all fun i =>
        !(get_imported_ids fsx (sanitize_dirname p.1)).contains i) = true := by
  constructor
  · have hcov : ∀ e ∈ sortBy keyLe (groupCampaigns (build_thread_map config) exportMsgs),
        covered (import_messages exportMsgs config false fs0).2.1 e :=
      fun e he => foldl_step_covers (build_gm_map config) _ ([], fs0, []) e he
    obtain ⟨ha, hb, hc⟩ := foldl_step_idle (build_gm_map config)
      (import_messages exportMsgs config false fs0).2.1
      (sortBy keyLe (groupCampaigns (build_thread_map config) exportMsgs)) hcov [] [] rfl
    exact ⟨hc, ha, hb⟩
  · have hfresh : logFresh fsx (import_messages e2 config false fsx).2.2 :=
      foldl_step_logFresh (build_gm_map config) fsx
        (sortBy keyLe (groupCampaigns (build_thread_map config) e2)) ([], fsx, [])
        (fsLe_refl fsx) (fun p hp => by cases hp)
    rw [List.all_eq_true]
    intro p hp
    rw [List.all_eq_true]
    intro i hi
    have hni := hfresh p hp i hi
    have hfalse : (get_imported_ids fsx (sanitize_dirname p.1)).contains i = false := by
      cases hcase : (get_imported_ids fsx (sanitize_dirname p.1)).contains i with
      | false => rfl
      | true =>
        exact absurd (List.elem_iff.mp (by simpa [List.contains] using hcase)) hni
    rw [hfalse]
    rfl

end Importer
